import Mathlib

/-!
Verification of the deterministic puzzle-selection and guess-evaluation engine
of the Wordle+ repository. Pure functions from the repository sources
(`validation.ts`, `localStorage.ts`, the `App.svelte` module script) are
embedded shallowly; components whose implementation files are not part of the
provided sources (the seeded word selector, the guess scorer, the game state
machine, the statistics aggregator and the state serializer) are modelled from
the specification, as marked in their doc comments.
-/

namespace WordlePlus

/-- Per-cell classification of a guessed letter against the target word. -/
inductive LetterState where
  | Correct
  | Present
  | Absent
  deriving DecidableEq, Repr

/-- Modelled from the spec: pass 1 of the two-pass guess scorer (the scorer
implementation file is not among the provided sources). For each position the
flag records whether guess and target agree exactly there. -/
def matchFlags : List Char → List Char → List (Char × Bool)
  | g :: gs, t :: ts => (g, g == t) :: matchFlags gs ts
  | _, _ => []

/-- Modelled from the spec: the remaining-count table after pass 1, represented
as the list of target letters at positions that were not matched exactly. -/
def removeMatched : List Char → List Char → List Char
  | g :: gs, t :: ts =>
    if g == t then removeMatched gs ts else t :: removeMatched gs ts
  | _, _ => []

/-- Modelled from the spec: pass 2 of the scorer. A position already Correct
stays Correct; otherwise, if the guessed letter still has remaining count in
the table it is marked Present and one occurrence is consumed; otherwise it is
marked Absent. -/
def scorePass2 (rem : List Char) : List (Char × Bool) → List (Char × LetterState)
  | [] => []
  | (c, b) :: rest =>
    if b then (c, LetterState.Correct) :: scorePass2 rem rest
    else if 0 < rem.count c then
      (c, LetterState.Present) :: scorePass2 (rem.erase c) rest
    else (c, LetterState.Absent) :: scorePass2 rem rest

/-- Modelled from the spec: the full two-pass scorer, returning each guessed
letter paired with its state. -/
def scoreGuess (guess target : List Char) : List (Char × LetterState) :=
  scorePass2 (removeMatched guess target) (matchFlags guess target)

/-- The per-position state sequence produced by the scorer. -/
def scoreStates (guess target : List Char) : List LetterState :=
  (scoreGuess guess target).map Prod.snd

/-- Number of positions carrying letter `c` that were marked Correct. -/
def correctCount (c : Char) (l : List (Char × LetterState)) : Nat :=
  (l.filter (fun p => p.1 == c && p.2 == LetterState.Correct)).length

/-- Number of positions carrying letter `c` that were marked Present. -/
def presentCount (c : Char) (l : List (Char × LetterState)) : Nat :=
  (l.filter (fun p => p.1 == c && p.2 == LetterState.Present)).length

/-- Total number of Correct-plus-Present positions for letter `c`. -/
def markedCount (c : Char) (l : List (Char × LetterState)) : Nat :=
  correctCount c l + presentCount c l

/-- Number of exactly-matched positions carrying letter `c` in the pass-1
flags. -/
def flaggedCount (c : Char) (l : List (Char × Bool)) : Nat :=
  (l.filter (fun p => p.1 == c && p.2)).length

/-- A parsed JSON value, the result type of a successful `JSON.parse` call.
Numbers are modelled as rationals. -/
inductive JsonValue where
  | jnull
  | jbool (b : Bool)
  | jnum (q : Rat)
  | jstr (s : String)
  | jarr (elems : List JsonValue)
  | jobj (fields : List (String × JsonValue))

/-- Property access `value.k` on a parsed JSON object: the value stored under
key `k`, or `none` for `undefined` when the key is missing. -/
def lookupField (fields : List (String × JsonValue)) (k : String) : Option JsonValue :=
  match fields with
  | [] => none
  | (k2, v) :: rest => if k2 = k then some v else lookupField rest k

/-- Guard `isBoolean` from validation.ts, applied to a possibly-missing field. -/
def isBooleanField : Option JsonValue → Bool
  | some (JsonValue.jbool _) => true
  | _ => false

/-- Guard `isNumber` from validation.ts (a JSON-parsed value is never `NaN`),
applied to a possibly-missing field. -/
def isNumberField : Option JsonValue → Bool
  | some (JsonValue.jnum _) => true
  | _ => false

/-- Check `isNumber(guesses) && guesses >= 0 && guesses <= 6` from
`isValidGameState`. -/
def isGuessCountField : Option JsonValue → Bool
  | some (JsonValue.jnum q) => decide (0 ≤ q) && decide (q ≤ 6)
  | _ => false

/-- Guard `isArray` from validation.ts, applied to a possibly-missing field. -/
def isArrayField : Option JsonValue → Bool
  | some (JsonValue.jarr _) => true
  | _ => false

/-- Validator `isValidGameState` from validation.ts: the persisted blob must be an
object (not null, not an array) with boolean `active`, numeric `guesses` in
`[0, 6]`, boolean `validHard`, numeric `time`, numeric `wordNumber`, and a
`board` object whose `words` and `state` members are arrays. -/
def isValidGameState (value : JsonValue) : Bool :=
  match value with
  | JsonValue.jobj fields =>
    isBooleanField (lookupField fields ("active")) &&
    isGuessCountField (lookupField fields ("guesses")) &&
    isBooleanField (lookupField fields ("validHard")) &&
    isNumberField (lookupField fields ("time")) &&
    isNumberField (lookupField fields ("wordNumber")) &&
    (match lookupField fields ("board") with
     | some (JsonValue.jobj bf) =>
       isArrayField (lookupField bf ("words")) && isArrayField (lookupField bf ("state"))
     | _ => false)
  | _ => false

/-- Function `parseJSON` from validation.ts. Its `JSON.parse` call either throws — the
`none` case of the already-parsed argument — or yields a value, which is
returned exactly when the validator accepts it; every other input yields the
supplied fallback. -/
def parseJSON (parsed : Option JsonValue) (validator : JsonValue → Bool)
    (fallback : JsonValue) : JsonValue :=
  match parsed with
  | none => fallback
  | some v => if validator v then v else fallback

/-- The character class `[a-zA-Z]` of the regular expression in
`isValidWord`. -/
def isAlphaChar (c : Char) : Bool :=
  ('a' ≤ c && c ≤ 'z') || ('A' ≤ c && c ≤ 'Z')

/-- Function `isValidWord` from validation.ts: the regular expression test
`/^[a-zA-Z]\x7b5\x7d$/.test(word)` — exactly five characters, each a letter. -/
def isValidWord (word : String) : Bool :=
  word.data.length == 5 && word.data.all isAlphaChar

/-- Outcome of a `localStorage.getItem` call: the read may throw, find no
entry (`null`), or return the stored string. -/
inductive StorageRead where
  | readThrew
  | absent
  | value (s : String)

/-- The key-validity test `!isString(key) || key.trim() === ""` of
localStorage.ts (the `isString` disjunct is vacuous for a typed string
argument): trimming leading and trailing whitespace leaves the empty string
exactly when every character of the key is whitespace. -/
def keyTrimsEmpty (key : String) : Bool :=
  key.data.all Char.isWhitespace

/-- Function `safeGetItem` from localStorage.ts: an invalid (whitespace-only) key, a
throwing read, and an absent entry all yield the supplied fallback (`null`,
i.e. `none`, by default); only a successful non-null read yields the stored
string. -/
def safeGetItem (key : String) (store : String → StorageRead)
    (fallback : Option String) : Option String :=
  if keyTrimsEmpty key then fallback
  else
    match store key with
    | StorageRead.readThrew => fallback
    | StorageRead.absent => fallback
    | StorageRead.value v => some v

/-- The mutable per-mode record of `modeData.modes[m]` used by the App.svelte
module script: the `seed`/`historical` pair together with the mode's `unit`
length and `start` epoch offset. -/
structure ModeRec where
  seed : Int
  historical : Bool
  unit : Int
  start : Int
  deriving DecidableEq, Repr

/-- The deep-link handling of the App.svelte module script. `hashNum` is the
numeric value of `+hash[1]` (`none` when `isNaN`); `currentWordNumber` is the
value of `getWordNumber(modeVal)`. When the number is present and below the
current word number, the mode's seed is set to
`(hash[1] - 1) * unit + start` and the historical flag is raised; otherwise
the mode record is left untouched. -/
def handleWordLink (hashNum : Option Int) (currentWordNumber : Int)
    (m : ModeRec) : ModeRec :=
  match hashNum with
  | none => m
  | some w =>
    if w < currentWordNumber then
      { m with seed := (w - 1) * m.unit + m.start, historical := true }
    else m

/-- Modelled from the spec: one step of a linear-congruential generator with
fixed constants, seeded from the integer seed (the `seededRandomInt`
implementation file is not among the provided sources; the spec fixes only
that it is a deterministic seeded generator, e.g. an LCG). -/
def lcgNext (seed : Int) : Int :=
  (1664525 * seed + 1013904223) % 4294967296

/-- Modelled from the spec: `seededRandomInt(min, max, seed)` — one
deterministic pseudo-random draw in `[min, max)`, re-seeded fresh from the
given integer on every call. -/
def seededRandomInt (a b : Nat) (seed : Int) : Nat :=
  a + (lcgNext seed % Int.ofNat (b - a)).toNat

/-- The word selection of the App.svelte module script:
`words.words[seededRandomInt(0, words.words.length, seed)]`. -/
def wordAt (catalog : List String) (seed : Int) : Option String :=
  catalog[seededRandomInt 0 catalog.length seed]?

/-- The per-mode statistics record (spec §4.5): games played, the word number
of the most recently recorded game, one occurrence bucket per winning guess
count plus a fail bucket, and the current and maximum streaks. -/
structure Stats where
  played : Nat
  lastGame : Int
  gFail : Nat
  g1 : Nat
  g2 : Nat
  g3 : Nat
  g4 : Nat
  g5 : Nat
  g6 : Nat
  streak : Nat
  maxStreak : Nat
  deriving DecidableEq, Repr

/-- Outcome of a completed game: won in a given number of guesses, or lost. -/
inductive Outcome where
  | won (guessCount : Nat)
  | lost
  deriving DecidableEq, Repr

/-- Modelled from the spec: the bucket update of `recordResult` — the bucket
for the winning guess count (1..6) or the fail bucket is incremented. -/
def addBucket (s : Stats) : Outcome → Stats
  | Outcome.lost => { s with gFail := s.gFail + 1 }
  | Outcome.won 1 => { s with g1 := s.g1 + 1 }
  | Outcome.won 2 => { s with g2 := s.g2 + 1 }
  | Outcome.won 3 => { s with g3 := s.g3 + 1 }
  | Outcome.won 4 => { s with g4 := s.g4 + 1 }
  | Outcome.won 5 => { s with g5 := s.g5 + 1 }
  | Outcome.won 6 => { s with g6 := s.g6 + 1 }
  | Outcome.won _ => s

/-- Modelled from the spec: `recordResult(stats, wordNumber, outcome)` (the
statistics aggregator implementation file is not among the provided sources).
If `wordNumber <= stats.lastGame` the call is a no-op; otherwise `played`,
the proper bucket, the streak, the maximum streak and `lastGame` are
updated. -/
def recordResult (s : Stats) (wordNumber : Int) (o : Outcome) : Stats :=
  if wordNumber ≤ s.lastGame then s
  else
    let newStreak : Nat :=
      match o with
      | Outcome.won _ => s.streak + 1
      | Outcome.lost => 0
    { addBucket s o with
      played := s.played + 1
      lastGame := wordNumber
      streak := newStreak
      maxStreak := max s.maxStreak newStreak }

/-- Status of a game in progress or finished. -/
inductive GameStatus where
  | inProgress
  | wonGame
  | lostGame
  deriving DecidableEq, Repr

/-- Modelled from the spec: the state of the game state machine — the ordered
submitted guesses and the current status. -/
structure MachineState where
  guesses : List String
  status : GameStatus
  deriving DecidableEq, Repr

/-- Recoverable errors surfaced by `submitGuess`. -/
inductive SubmitError where
  | invalidWord
  | gameOver
  deriving DecidableEq, Repr

/-- Modelled from the spec: `submitGuess(state, guess)` (the game state
machine implementation file is not among the provided sources). A guess that
is not five letters (the src `isValidWord` test) or not in the accepted set
fails with `InvalidWord`; a guess against a terminal state fails with
`GameOver`; otherwise the guess is appended, a guess equal to the target wins,
a sixth non-matching guess loses, and anything else stays in progress. -/
def submitGuess (accepted : String → Bool) (target : String)
    (s : MachineState) (guess : String) : Except SubmitError MachineState :=
  if !(isValidWord guess && accepted guess) then
    Except.error SubmitError.invalidWord
  else if s.status ≠ GameStatus.inProgress then
    Except.error SubmitError.gameOver
  else
    if guess = target then
      Except.ok { guesses := s.guesses ++ [guess], status := GameStatus.wonGame }
    else if (s.guesses ++ [guess]).length = 6 then
      Except.ok { guesses := s.guesses ++ [guess], status := GameStatus.lostGame }
    else
      Except.ok { guesses := s.guesses ++ [guess], status := GameStatus.inProgress }

/-- The `GameStateData` shape of validation.ts: the fields of a persisted
game state blob. Numeric fields are JSON numbers, i.e. rationals. -/
structure GameStateData where
  active : Bool
  guesses : Rat
  validHard : Bool
  time : Rat
  wordNumber : Rat
  boardWords : List String
  boardState : List (List String)
  deriving DecidableEq, Repr

/-- Modelled from the spec: serialization of a game state into the persisted
JSON shape validated by the src `isValidGameState` (the `GameState.toString`
implementation file is not among the provided sources; the spec fixes the
field list and a stable field order). -/
def serializeGameState (s : GameStateData) : JsonValue :=
  JsonValue.jobj
    [("active", JsonValue.jbool s.active),
     ("guesses", JsonValue.jnum s.guesses),
     ("validHard", JsonValue.jbool s.validHard),
     ("time", JsonValue.jnum s.time),
     ("wordNumber", JsonValue.jnum s.wordNumber),
     ("board", JsonValue.jobj
       [("words", JsonValue.jarr (s.boardWords.map JsonValue.jstr)),
        ("state", JsonValue.jarr
          (s.boardState.map (fun row => JsonValue.jarr (row.map JsonValue.jstr))))])]

/-- Decode a JSON array of strings. -/
def decodeStrings : List JsonValue → Option (List String)
  | [] => some []
  | JsonValue.jstr s :: rest =>
    match decodeStrings rest with
    | some ss => some (s :: ss)
    | none => none
  | _ => none

/-- Decode a JSON array of arrays of strings. -/
def decodeRows : List JsonValue → Option (List (List String))
  | [] => some []
  | JsonValue.jarr row :: rest =>
    match decodeStrings row, decodeRows rest with
    | some r, some rs => some (r :: rs)
    | _, _ => none
  | _ => none

/-- Modelled from the spec: deserialization of a persisted game state blob.
The blob is checked with the src `isValidGameState` validator and rejected
(`none`, the `CorruptState` outcome) when malformed; otherwise the fields are
extracted back into a `GameStateData`. -/
def deserializeGameState (v : JsonValue) : Option GameStateData :=
  if isValidGameState v then
    match v with
    | JsonValue.jobj fields =>
      match lookupField fields ("active"), lookupField fields ("guesses"),
          lookupField fields ("validHard"), lookupField fields ("time"),
          lookupField fields ("wordNumber"), lookupField fields ("board") with
      | some (JsonValue.jbool a), some (JsonValue.jnum g),
          some (JsonValue.jbool vh), some (JsonValue.jnum t),
          some (JsonValue.jnum wn), some (JsonValue.jobj bf) =>
        match lookupField bf ("words"), lookupField bf ("state") with
        | some (JsonValue.jarr ws), some (JsonValue.jarr st) =>
          match decodeStrings ws, decodeRows st with
          | some ws2, some st2 =>
            some { active := a, guesses := g, validHard := vh, time := t,
                   wordNumber := wn, boardWords := ws2, boardState := st2 }
          | _, _ => none
        | _, _ => none
      | _, _, _, _, _, _ => none
    | _ => none
  else none

/-- The persistence key used by the App.svelte module script for a mode's
game state: `state-<mode>-h` when the mode is historical, `state-<mode>`
otherwise (both for saving and for loading). -/
def stateKey (m : Nat) (historical : Bool) : String :=
  if historical then ("state-") ++ toString m ++ ("-h")
  else ("state-") ++ toString m

/-- Function `saveState` of the App.svelte module script, as a transformation of the
backing store: the serialized blob is written under `stateKey` for the mode's
historical flag, and no other key is touched. -/
def saveState (m : Nat) (historical : Bool) (blob : String)
    (store : String → Option String) : String → Option String :=
  fun k => if k = stateKey m historical then some blob else store k

/-- The GameState load of the `mode.subscribe` handler: the blob is read from
`stateKey` for the mode's historical flag. -/
def loadState (m : Nat) (historical : Bool)
    (store : String → Option String) : Option String :=
  store (stateKey m historical)

/-- The spec-side description of a persisted game state blob accepted by the
parser: an object with boolean `active`, numeric `guesses` in `[0, 6]`,
boolean `validHard`, numeric `time`, numeric `wordNumber`, and a `board`
object carrying `words` and `state` arrays. Stated independently of the
source validator, to be compared with it. -/
def ClaimValidGameState (v : JsonValue) : Prop :=
  ∃ fields, v = JsonValue.jobj fields ∧
    (∃ b, lookupField fields ("active") = some (JsonValue.jbool b)) ∧
    (∃ q, lookupField fields ("guesses") = some (JsonValue.jnum q) ∧
      0 ≤ q ∧ q ≤ 6) ∧
    (∃ b, lookupField fields ("validHard") = some (JsonValue.jbool b)) ∧
    (∃ q, lookupField fields ("time") = some (JsonValue.jnum q)) ∧
    (∃ q, lookupField fields ("wordNumber") = some (JsonValue.jnum q)) ∧
    ∃ bf, lookupField fields ("board") = some (JsonValue.jobj bf) ∧
      (∃ ws, lookupField bf ("words") = some (JsonValue.jarr ws)) ∧
      (∃ st, lookupField bf ("state") = some (JsonValue.jarr st))

/-- The spec-side description of a well-formed guess: a string of exactly
five alphabetic characters, A to Z case-insensitively. Stated independently
of the source predicate, to be compared with it. -/
def ClaimFiveLetterWord (s : String) : Prop :=
  s.data.length = 5 ∧
    ∀ c ∈ s.data, ('a' ≤ c ∧ c ≤ 'z') ∨ ('A' ≤ c ∧ c ≤ 'Z')

/-- A concrete well-formed persisted game state blob, used as evaluation
input. -/
def sampleStateJson : JsonValue :=
  JsonValue.jobj
    [("active", JsonValue.jbool true),
     ("guesses", JsonValue.jnum 3),
     ("validHard", JsonValue.jbool true),
     ("time", JsonValue.jnum 40),
     ("wordNumber", JsonValue.jnum 12),
     ("board", JsonValue.jobj
       [("words", JsonValue.jarr [JsonValue.jstr ("ERASE")]),
        ("state", JsonValue.jarr [])])]

/-- A concrete non-historical mode record (unit 2, start 100, current seed
106), used as evaluation input. -/
def linkMode0 : ModeRec :=
  { seed := 106, historical := false, unit := 2, start := 100 }

/-- A concrete statistics record with `lastGame = 9`, used as evaluation
input. -/
def stats0 : Stats :=
  { played := 4, lastGame := 9, gFail := 1, g1 := 0, g2 := 0, g3 := 1,
    g4 := 2, g5 := 0, g6 := 0, streak := 2, maxStreak := 2 }

/-- A concrete in-progress machine state holding five submitted guesses,
used as evaluation input. -/
def machineState5 : MachineState :=
  { guesses := ["AUDIO", "PLUMB", "STOKE", "GRIND", "FETCH"],
    status := GameStatus.inProgress }

/-- The machine state reached from `machineState5` by a sixth non-matching
guess, used as evaluation input. -/
def machineState5After : MachineState :=
  { guesses := ["AUDIO", "PLUMB", "STOKE", "GRIND", "FETCH", "CRANE"],
    status := GameStatus.lostGame }

/-- A concrete reachable game state record, used as evaluation input. -/
def sampleState : GameStateData :=
  { active := true, guesses := 2, validHard := true, time := 95,
    wordNumber := 31,
    boardWords := ["ERASE", "SPEED"],
    boardState := [["P", "A", "A", "P", "P"], ["C", "C", "C", "C", "C"]] }

end WordlePlus

namespace WordlePlus

/-- Pass 2 marks at most `rem.count c` positions carrying letter `c` as
Present: each Present mark consumes one remaining occurrence. -/
theorem presentCount_scorePass2_le (c : Char) :
    ∀ (l : List (Char × Bool)) (rem : List Char),
      presentCount c (scorePass2 rem l) ≤ rem.count c := by
  intro l
  induction l with
  | nil => intro rem; simp [scorePass2, presentCount]
  | cons p rest ih =>
    intro rem
    obtain ⟨d, b⟩ := p
    by_cases hb : b
    · subst hb
      simpa [scorePass2, presentCount, List.filter_cons] using ih rem
    · simp only [Bool.not_eq_true] at hb
      subst hb
      by_cases hrem : 0 < rem.count d
      · by_cases hdc : d = c
        · subst hdc
          have h1 := ih (rem.erase d)
          rw [List.count_erase_self] at h1
          simp only [scorePass2, hrem, if_true, if_false]
          simp [presentCount, List.filter_cons] at h1 ⊢
          omega
        · have h1 := ih (rem.erase d)
          rw [List.count_erase_of_ne (fun h => hdc h.symm)] at h1
          simp only [scorePass2, hrem, if_true, if_false, presentCount,
            List.filter_cons]
          have hdc2 : (d == c) = false := by simp [hdc]
          simp [presentCount, hdc2] at h1 ⊢
          exact h1
      · have h1 := ih rem
        simp only [scorePass2, hrem, if_false, presentCount, List.filter_cons]
        simp [presentCount] at h1 ⊢
        exact h1

/-- Pass 2 marks exactly the pass-1-flagged positions of letter `c` as
Correct. -/
theorem correctCount_scorePass2 (c : Char) :
    ∀ (l : List (Char × Bool)) (rem : List Char),
      correctCount c (scorePass2 rem l) = flaggedCount c l := by
  intro l
  induction l with
  | nil => intro rem; simp [scorePass2, correctCount, flaggedCount]
  | cons p rest ih =>
    intro rem
    obtain ⟨d, b⟩ := p
    by_cases hb : b
    · subst hb
      have h1 := ih rem
      simp only [scorePass2, if_true]
      simp [correctCount, flaggedCount, List.filter_cons] at h1 ⊢
      split <;> simp [h1]
    · simp only [Bool.not_eq_true] at hb
      subst hb
      by_cases hrem : 0 < rem.count d
      · have h1 := ih (rem.erase d)
        simp only [scorePass2, hrem, if_true, if_false]
        simp [correctCount, flaggedCount, List.filter_cons] at h1 ⊢
        exact h1
      · have h1 := ih rem
        simp only [scorePass2, hrem, if_false]
        simp [correctCount, flaggedCount, List.filter_cons] at h1 ⊢
        exact h1

/-- The exactly-matched positions of letter `c` together with its remaining
table occurrences never exceed the occurrences of `c` in the target. -/
theorem flagged_add_removeMatched_le (c : Char) :
    ∀ (guess target : List Char),
      flaggedCount c (matchFlags guess target)
        + (removeMatched guess target).count c ≤ target.count c := by
  intro guess
  induction guess with
  | nil => intro target; cases target <;> simp [matchFlags, removeMatched, flaggedCount]
  | cons g gs ih =>
    intro target
    cases target with
    | nil => simp [matchFlags, removeMatched, flaggedCount]
    | cons t ts =>
      have h1 := ih ts
      by_cases hgt : g = t
      · subst hgt
        by_cases hc : g = c
        · subst hc
          simp [matchFlags, removeMatched, flaggedCount, List.filter_cons,
            List.count_cons] at h1 ⊢
          omega
        · have hbeq : (g == c) = false := by simp [hc]
          simp [matchFlags, removeMatched, flaggedCount, List.filter_cons,
            List.count_cons, hbeq] at h1 ⊢
          omega
      · have hbeq : (g == t) = false := by simp [hgt]
        simp [matchFlags, removeMatched, flaggedCount, List.filter_cons,
          List.count_cons, hbeq] at h1 ⊢
        by_cases htc : t = c
        · subst htc
          simp at h1 ⊢
          omega
        · have hbeq2 : (t == c) = false := by simp [htc]
          simp [hbeq2] at h1 ⊢
          omega

/-- Characterization of the boolean-field guard. -/
theorem isBooleanField_iff (o : Option JsonValue) :
    isBooleanField o = true ↔ ∃ b, o = some (JsonValue.jbool b) := by
  unfold isBooleanField
  split
  · rename_i b; simp
  · rename_i hne
    simp only [Bool.false_eq_true, false_iff, not_exists]
    intro b hb
    exact hne b hb

/-- Characterization of the numeric-field guard. -/
theorem isNumberField_iff (o : Option JsonValue) :
    isNumberField o = true ↔ ∃ q, o = some (JsonValue.jnum q) := by
  unfold isNumberField
  split
  · rename_i q; simp
  · rename_i hne
    simp only [Bool.false_eq_true, false_iff, not_exists]
    intro q hq
    exact hne q hq

/-- Characterization of the array-field guard. -/
theorem isArrayField_iff (o : Option JsonValue) :
    isArrayField o = true ↔ ∃ l, o = some (JsonValue.jarr l) := by
  unfold isArrayField
  split
  · rename_i l; simp
  · rename_i hne
    simp only [Bool.false_eq_true, false_iff, not_exists]
    intro l hl
    exact hne l hl

/-- Characterization of the guess-count field check. -/
theorem isGuessCountField_iff (o : Option JsonValue) :
    isGuessCountField o = true ↔
      ∃ q, o = some (JsonValue.jnum q) ∧ 0 ≤ q ∧ q ≤ 6 := by
  unfold isGuessCountField
  split
  · rename_i q
    simp [Bool.and_eq_true, decide_eq_true_eq]
  · rename_i hne
    simp only [Bool.false_eq_true, false_iff, not_exists]
    intro q hq
    exact absurd hq.1 (fun h => hne q h)

/-- The source validator `isValidGameState` accepts exactly the blobs
described by the spec-side `ClaimValidGameState`. -/
theorem isValidGameState_iff (v : JsonValue) :
    isValidGameState v = true ↔ ClaimValidGameState v := by
  match v with
  | JsonValue.jnull => simp [isValidGameState, ClaimValidGameState]
  | JsonValue.jbool b => simp [isValidGameState, ClaimValidGameState]
  | JsonValue.jnum q => simp [isValidGameState, ClaimValidGameState]
  | JsonValue.jstr s => simp [isValidGameState, ClaimValidGameState]
  | JsonValue.jarr l => simp [isValidGameState, ClaimValidGameState]
  | JsonValue.jobj fields =>
    simp only [isValidGameState, Bool.and_eq_true, isBooleanField_iff,
      isNumberField_iff, isGuessCountField_iff, ClaimValidGameState,
      JsonValue.jobj.injEq, exists_eq_left']
    constructor
    · rintro ⟨⟨⟨⟨⟨h1, h2⟩, h3⟩, h4⟩, h5⟩, h6⟩
      refine ⟨h1, h2, h3, h4, h5, ?_⟩
      revert h6
      rcases hb : lookupField fields ("board") with _ | bv
      · intro h6; simp at h6
      · match bv with
        | JsonValue.jobj bf =>
          intro h6
          simp only [Bool.and_eq_true, isArrayField_iff] at h6
          exact ⟨bf, rfl, h6.1, h6.2⟩
        | JsonValue.jnull => intro h6; simp at h6
        | JsonValue.jbool b2 => intro h6; simp at h6
        | JsonValue.jnum q2 => intro h6; simp at h6
        | JsonValue.jstr s2 => intro h6; simp at h6
        | JsonValue.jarr l2 => intro h6; simp at h6
    · rintro ⟨h1, h2, h3, h4, h5, bf, hbf, hws, hst⟩
      refine ⟨⟨⟨⟨⟨h1, h2⟩, h3⟩, h4⟩, h5⟩, ?_⟩
      rw [hbf]
      simp only [Bool.and_eq_true, isArrayField_iff]
      exact ⟨hws, hst⟩

/-- Inversion of a successful `submitGuess` call: the guess was well formed
and accepted, the state was in progress, the guess was appended, and the
resulting status is won on a match, lost on a sixth non-matching guess, and
in progress otherwise. -/
theorem submitGuess_ok_inversion (accepted : String → Bool) (target : String)
    (s : MachineState) (guess : String) (s2 : MachineState)
    (heq : submitGuess accepted target s guess = Except.ok s2) :
    (isValidWord guess && accepted guess) = true ∧
    s.status = GameStatus.inProgress ∧
    s2.guesses = s.guesses ++ [guess] ∧
    ((guess = target ∧ s2.status = GameStatus.wonGame) ∨
     (guess ≠ target ∧ (s.guesses ++ [guess]).length = 6 ∧
       s2.status = GameStatus.lostGame) ∨
     (guess ≠ target ∧ (s.guesses ++ [guess]).length ≠ 6 ∧
       s2.status = GameStatus.inProgress)) := by
  cases hv : (isValidWord guess && accepted guess) with
  | false => simp [submitGuess, hv] at heq
  | true =>
    cases hstatus : s.status with
    | wonGame => simp [submitGuess, hv, hstatus] at heq
    | lostGame => simp [submitGuess, hv, hstatus] at heq
    | inProgress =>
      by_cases hgt : guess = target
      · subst hgt
        simp [submitGuess, hv, hstatus] at heq
        subst heq
        exact ⟨rfl, rfl, rfl, Or.inl ⟨rfl, rfl⟩⟩
      · by_cases hlen : s.guesses.length = 5
        · simp [submitGuess, hv, hstatus, hgt, hlen] at heq
          subst heq
          refine ⟨rfl, rfl, rfl, Or.inr (Or.inl ⟨hgt, ?_, rfl⟩)⟩
          simp [hlen]
        · simp [submitGuess, hv, hstatus, hgt, hlen] at heq
          subst heq
          refine ⟨rfl, rfl, rfl, Or.inr (Or.inr ⟨hgt, ?_, rfl⟩)⟩
          simp only [List.length_append, List.length_cons, List.length_nil]
          omega

/-- Decoding inverts encoding for a JSON array of strings. -/
theorem decodeStrings_map (l : List String) :
    decodeStrings (l.map JsonValue.jstr) = some l := by
  induction l with
  | nil => rfl
  | cons x xs ih => simp [decodeStrings, ih]

/-- Decoding inverts encoding for a JSON array of string arrays. -/
theorem decodeRows_map (l : List (List String)) :
    decodeRows (l.map (fun row => JsonValue.jarr (row.map JsonValue.jstr)))
      = some l := by
  induction l with
  | nil => rfl
  | cons x xs ih => simp [decodeRows, decodeStrings_map, ih]

end WordlePlus

namespace WordlePlus

/-- C1 — for every catalog and every fixed seed, the selected target word is a
deterministic pure function of the catalog and the seed: the selection
expression evaluated twice yields identical results, and for a non-empty
catalog the drawn index is in range, so the selection always yields a word. -/
theorem wordSelection_deterministic (catalog : List String) (seed : Int) :
    wordAt catalog seed = wordAt catalog seed ∧
    (0 < catalog.length →
      seededRandomInt 0 catalog.length seed < catalog.length ∧
      ∃ w, wordAt catalog seed = some w) := by
  refine ⟨rfl, fun hpos => ?_⟩
  have hlt : seededRandomInt 0 catalog.length seed < catalog.length := by
    unfold seededRandomInt
    simp only [Nat.sub_zero, Int.ofNat_eq_natCast]
    have hb : (0 : Int) < (catalog.length : Int) := by omega
    have h1 := Int.emod_nonneg (lcgNext seed) (by omega :
      (catalog.length : Int) ≠ 0)
    have h2 := Int.emod_lt_of_pos (lcgNext seed) hb
    omega
  refine ⟨hlt, ⟨catalog[seededRandomInt 0 catalog.length seed], ?_⟩⟩
  unfold wordAt
  exact List.getElem?_eq_getElem hlt

/-- Witness for C1 at a concrete two-word catalog and seed 7. -/
theorem wordSelection_deterministic_witness :
    seededRandomInt 0 (["APPLE", "SPEED"] : List String).length 7
        < (["APPLE", "SPEED"] : List String).length ∧
    ∃ w, wordAt ["APPLE", "SPEED"] 7 = some w :=
  (wordSelection_deterministic ["APPLE", "SPEED"] 7).2 (by decide)

/-- C2 counterexample — word number 0 is below the claimed lower bound 1, yet
the deep-link handler accepts it: with current word number 4 it rewrites the
mode record (seed becomes `(0 - 1) * 2 + 100 = 98`, historical is raised)
instead of leaving it unchanged. -/
theorem deepLink_lower_bound_missing :
    handleWordLink (some 0) 4 linkMode0 ≠ linkMode0 ∧
    handleWordLink (some 0) 4 linkMode0 =
      { seed := 98, historical := true, unit := 2, start := 100 } := by
  constructor <;> decide

/-- C2 amended — a numeric word number `w` below the current word number
(`elapsed + 1`) sets the mode's seed to `(w - 1) * unit + start` and raises
the historical flag, with no lower bound on `w`; a word number greater than
the units elapsed since start, or a non-numeric hash, leaves the mode record
unchanged. -/
theorem handleWordLink_amended (hashNum : Option Int) (elapsed : Int)
    (m : ModeRec) :
    (hashNum = none → handleWordLink hashNum (elapsed + 1) m = m) ∧
    (∀ w, hashNum = some w → w ≤ elapsed →
      handleWordLink hashNum (elapsed + 1) m =
        { m with seed := (w - 1) * m.unit + m.start, historical := true }) ∧
    (∀ w, hashNum = some w → elapsed < w →
      handleWordLink hashNum (elapsed + 1) m = m) := by
  refine ⟨?_, ?_, ?_⟩
  · rintro rfl; rfl
  · rintro w rfl hw
    show (if w < elapsed + 1 then _ else _) = _
    rw [if_pos (by omega)]
  · rintro w rfl hw
    show (if w < elapsed + 1 then _ else _) = _
    rw [if_neg (by omega)]

/-- Witness for the amended C2 at word numbers 2 (accepted), 9 (rejected) and
a non-numeric hash, against three units elapsed. -/
theorem handleWordLink_amended_witness :
    handleWordLink (some 2) (3 + 1) linkMode0 =
      { linkMode0 with seed := (2 - 1) * linkMode0.unit + linkMode0.start,
                       historical := true } ∧
    handleWordLink (some 9) (3 + 1) linkMode0 = linkMode0 ∧
    handleWordLink none (3 + 1) linkMode0 = linkMode0 :=
  ⟨(handleWordLink_amended (some 2) 3 linkMode0).2.1 2 rfl (by decide),
   (handleWordLink_amended (some 9) 3 linkMode0).2.2 9 rfl (by decide),
   (handleWordLink_amended none 3 linkMode0).1 rfl⟩

/-- C3 counterexample — scoring guess ERASE against target SPEED does not
mark positions 3 and 4 Absent as the claim states: the S and the final E of
the guess do occur in the unmatched part of the target, so the two-pass
scorer marks them Present. -/
theorem guessScorer_example_counterexample :
    ¬ (scoreStates ['E', 'R', 'A', 'S', 'E'] ['S', 'P', 'E', 'E', 'D'] =
        [LetterState.Present, LetterState.Absent, LetterState.Absent,
         LetterState.Absent, LetterState.Absent]) := by
  decide

/-- C3 amended — for every guess and target, the scorer marks, for each
letter, at most as many Correct-plus-Present positions as that letter has
occurrences in the target; and scoring ERASE against SPEED yields Present at
positions 0, 3 and 4 and Absent at positions 1 and 2. -/
theorem guessScorer_duplicate_invariant :
    (∀ (guess target : List Char) (c : Char),
        markedCount c (scoreGuess guess target) ≤ target.count c) ∧
    scoreStates ['E', 'R', 'A', 'S', 'E'] ['S', 'P', 'E', 'E', 'D'] =
      [LetterState.Present, LetterState.Absent, LetterState.Absent,
       LetterState.Present, LetterState.Present] := by
  constructor
  · intro guess target c
    have h1 := presentCount_scorePass2_le c (matchFlags guess target)
      (removeMatched guess target)
    have h2 := correctCount_scorePass2 c (matchFlags guess target)
      (removeMatched guess target)
    have h3 := flagged_add_removeMatched_le c guess target
    unfold markedCount scoreGuess
    omega
  · decide

/-- C4 — parsing a persisted GameState blob never escalates a failure: a
throwing `JSON.parse` (the `none` case) yields the fallback, a parsed value
satisfying the claimed shape (object with boolean `active`, numeric `guesses`
in `[0, 6]`, boolean `validHard`, numeric `time`, numeric `wordNumber`, and a
`board` with `words` and `state` arrays) is returned exactly, and every other
parsed value yields the fallback. -/
theorem parseJSON_validates (parsed : Option JsonValue) (fb : JsonValue) :
    (parsed = none → parseJSON parsed isValidGameState fb = fb) ∧
    ∀ v, parsed = some v →
      (ClaimValidGameState v → parseJSON parsed isValidGameState fb = v) ∧
      (¬ ClaimValidGameState v → parseJSON parsed isValidGameState fb = fb) := by
  constructor
  · rintro rfl; rfl
  · rintro v rfl
    constructor
    · intro hv
      have hval : isValidGameState v = true := (isValidGameState_iff v).mpr hv
      simp [parseJSON, hval]
    · intro hv
      cases hval : isValidGameState v with
      | true => exact absurd ((isValidGameState_iff v).mp hval) hv
      | false => simp [parseJSON, hval]

/-- Witness for C4 at a concrete well-formed blob and at a failed parse. -/
theorem parseJSON_validates_witness :
    parseJSON (some sampleStateJson) isValidGameState JsonValue.jnull
        = sampleStateJson ∧
    parseJSON none isValidGameState JsonValue.jnull = JsonValue.jnull :=
  ⟨((parseJSON_validates (some sampleStateJson) JsonValue.jnull).2
      sampleStateJson rfl).1
      ((isValidGameState_iff sampleStateJson).mp (by decide)),
   (parseJSON_validates none JsonValue.jnull).1 rfl⟩

end WordlePlus

namespace WordlePlus

/-- C5 — a game is lost exactly on the sixth non-matching guess: a successful
non-matching submission yields status Lost precisely when five guesses were
already recorded; a matching guess yields Won; no submission pushes the guess
count past six (and a state left in progress holds at most five guesses); and
every blob the validator accepts carries a guess count between 0 and 6. -/
theorem gameState_six_guess_boundary :
    (∀ (v : JsonValue) (fields : List (String × JsonValue)),
      v = JsonValue.jobj fields → isValidGameState v = true →
      ∃ q, lookupField fields ("guesses") = some (JsonValue.jnum q) ∧
        0 ≤ q ∧ q ≤ 6) ∧
    (∀ (accepted : String → Bool) (target : String) (s : MachineState)
        (guess : String) (s2 : MachineState),
      guess ≠ target →
      submitGuess accepted target s guess = Except.ok s2 →
      (s2.status = GameStatus.lostGame ↔ s.guesses.length = 5)) ∧
    (∀ (accepted : String → Bool) (target : String) (s : MachineState)
        (guess : String) (s2 : MachineState),
      submitGuess accepted target s guess = Except.ok s2 → guess = target →
      s2.status = GameStatus.wonGame) ∧
    (∀ (accepted : String → Bool) (target : String) (s : MachineState)
        (guess : String) (s2 : MachineState),
      s.guesses.length ≤ 5 →
      submitGuess accepted target s guess = Except.ok s2 →
      s2.guesses.length ≤ 6 ∧
        (s2.status = GameStatus.inProgress → s2.guesses.length ≤ 5)) := by
  refine ⟨?_, ?_, ?_, ?_⟩
  · rintro v fields rfl hval
    obtain ⟨f2, hf2, _, hg, _⟩ := (isValidGameState_iff _).mp hval
    injection hf2 with hf
    subst hf
    exact hg
  · intro accepted target s guess s2 hne heq
    obtain ⟨_, _, hgs, hdisj⟩ :=
      submitGuess_ok_inversion accepted target s guess s2 heq
    rcases hdisj with ⟨h1, h2⟩ | ⟨h1, h2, h3⟩ | ⟨h1, h2, h3⟩
    · exact absurd h1 hne
    · rw [h3]
      simp only [List.length_append, List.length_cons, List.length_nil] at h2
      exact iff_of_true rfl (by omega)
    · rw [h3]
      refine iff_of_false (by simp) (fun h5 => h2 ?_)
      simp only [List.length_append, List.length_cons, List.length_nil, h5]
  · intro accepted target s guess s2 heq hgt
    obtain ⟨_, _, _, hdisj⟩ :=
      submitGuess_ok_inversion accepted target s guess s2 heq
    rcases hdisj with ⟨h1, h2⟩ | ⟨h1, h2, h3⟩ | ⟨h1, h2, h3⟩
    · exact h2
    · exact absurd hgt h1
    · exact absurd hgt h1
  · intro accepted target s guess s2 hlen heq
    obtain ⟨_, _, hgs, hdisj⟩ :=
      submitGuess_ok_inversion accepted target s guess s2 heq
    have hlen2 : s2.guesses.length = s.guesses.length + 1 := by
      rw [hgs]
      simp only [List.length_append, List.length_cons, List.length_nil]
    rcases hdisj with ⟨h1, h2⟩ | ⟨h1, h2, h3⟩ | ⟨h1, h2, h3⟩
    · refine ⟨by omega, fun habs => ?_⟩
      rw [h2] at habs
      simp at habs
    · refine ⟨by omega, fun habs => ?_⟩
      rw [h3] at habs
      simp at habs
    · simp only [List.length_append, List.length_cons, List.length_nil] at h2
      exact ⟨by omega, fun _ => by omega⟩

/-- Witness for C5: the sixth non-matching guess CRANE against SPEED turns a
five-guess in-progress state into a lost state within the six-guess bound,
and a concrete accepted blob carries a bounded guess count. -/
theorem gameState_six_guess_boundary_witness :
    (∃ q, lookupField
        [("active", JsonValue.jbool true),
         ("guesses", JsonValue.jnum 3),
         ("validHard", JsonValue.jbool true),
         ("time", JsonValue.jnum 40),
         ("wordNumber", JsonValue.jnum 12),
         ("board", JsonValue.jobj
           [("words", JsonValue.jarr [JsonValue.jstr ("ERASE")]),
            ("state", JsonValue.jarr [])])] ("guesses")
        = some (JsonValue.jnum q) ∧ 0 ≤ q ∧ q ≤ 6) ∧
    (machineState5After.status = GameStatus.lostGame ↔
      machineState5.guesses.length = 5) ∧
    machineState5After.guesses.length ≤ 6 ∧
    (machineState5After.status = GameStatus.inProgress →
      machineState5After.guesses.length ≤ 5) :=
  ⟨gameState_six_guess_boundary.1 sampleStateJson _ rfl (by decide),
   gameState_six_guess_boundary.2.1 (fun _ => true) ("SPEED") machineState5
     ("CRANE") machineState5After (by decide) (by rfl),
   (gameState_six_guess_boundary.2.2.2 (fun _ => true) ("SPEED") machineState5
     ("CRANE") machineState5After (by decide) (by rfl)).1,
   (gameState_six_guess_boundary.2.2.2 (fun _ => true) ("SPEED") machineState5
     ("CRANE") machineState5After (by decide) (by rfl)).2⟩

/-- C6 — `isValidWord` accepts exactly the strings of five alphabetic
characters (A to Z, case-insensitive), and a guess failing this test is
rejected by the state machine with InvalidWord, leaving no recorded state. -/
theorem isValidWord_spec :
    (∀ s : String, isValidWord s = true ↔ ClaimFiveLetterWord s) ∧
    ∀ (accepted : String → Bool) (target : String) (st : MachineState)
        (guess : String),
      isValidWord guess = false →
      submitGuess accepted target st guess
        = Except.error SubmitError.invalidWord := by
  constructor
  · intro s
    simp [isValidWord, ClaimFiveLetterWord, List.all_eq_true, isAlphaChar,
      Bool.or_eq_true, Bool.and_eq_true, decide_eq_true_eq]
  · intro accepted target st guess h
    simp [submitGuess, h]

/-- Witness for C6 at a well-formed word, a digit-bearing word and a
rejected submission. -/
theorem isValidWord_spec_witness :
    isValidWord ("ERASE") = true ∧
    isValidWord ("AB1DE") = false ∧
    submitGuess (fun _ => true) ("SPEED")
        { guesses := [], status := GameStatus.inProgress } ("AB1DE")
      = Except.error SubmitError.invalidWord :=
  ⟨by decide,
   by decide,
   (isValidWord_spec.2 (fun _ => true) ("SPEED")
      { guesses := [], status := GameStatus.inProgress } ("AB1DE") (by decide))⟩

/-- C7 — `recordResult` is idempotent per puzzle: a call whose word number
does not exceed `lastGame` leaves the statistics unchanged, and a repeated
call with the same word number changes the statistics only once. -/
theorem recordResult_idempotent (s : Stats) (wn : Int) (o : Outcome) :
    (wn ≤ s.lastGame → recordResult s wn o = s) ∧
    recordResult (recordResult s wn o) wn o = recordResult s wn o := by
  constructor
  · intro h
    simp [recordResult, h]
  · by_cases h : wn ≤ s.lastGame
    · simp [recordResult, h]
    · simp [recordResult, h]

/-- Witness for C7 at an already-recorded word number 7 and a fresh word
number 12 against `lastGame = 9`. -/
theorem recordResult_idempotent_witness :
    recordResult stats0 7 (Outcome.won 3) = stats0 ∧
    recordResult (recordResult stats0 12 (Outcome.won 4)) 12 (Outcome.won 4)
      = recordResult stats0 12 (Outcome.won 4) :=
  ⟨(recordResult_idempotent stats0 7 (Outcome.won 3)).1 (by decide),
   (recordResult_idempotent stats0 12 (Outcome.won 4)).2⟩

/-- C8 — serialization round-trips: for every game state whose guess count
lies in the validated range (as every reachable state's does), deserializing
the serialized blob restores the state exactly. -/
theorem gameState_roundTrip (s : GameStateData)
    (h0 : 0 ≤ s.guesses) (h6 : s.guesses ≤ 6) :
    deserializeGameState (serializeGameState s) = some s := by
  have hval : isValidGameState (serializeGameState s) = true := by
    simp [isValidGameState, serializeGameState, lookupField, isBooleanField,
      isNumberField, isGuessCountField, isArrayField, h0, h6]
  simp only [serializeGameState] at hval
  simp [deserializeGameState, serializeGameState, lookupField, hval,
    decodeStrings_map, decodeRows_map]

/-- Witness for C8 at a concrete two-guess state. -/
theorem gameState_roundTrip_witness :
    deserializeGameState (serializeGameState sampleState) = some sampleState :=
  gameState_roundTrip sampleState (by decide) (by decide)

/-- C9 — `safeGetItem` never propagates a storage failure: an invalid key, a
throwing read and an absent entry all return the supplied fallback, and the
stored string is returned exactly when the read succeeds with a non-null
value. -/
theorem safeGetItem_fallback (key : String) (store : String → StorageRead)
    (fallback : Option String) :
    (keyTrimsEmpty key = true → safeGetItem key store fallback = fallback) ∧
    (keyTrimsEmpty key = false → store key = StorageRead.readThrew →
      safeGetItem key store fallback = fallback) ∧
    (keyTrimsEmpty key = false → store key = StorageRead.absent →
      safeGetItem key store fallback = fallback) ∧
    (keyTrimsEmpty key = false → ∀ v, store key = StorageRead.value v →
      safeGetItem key store fallback = some v) := by
  refine ⟨fun h => by simp [safeGetItem, h], fun h h2 => ?_, fun h h2 => ?_,
    fun h v h2 => ?_⟩ <;> simp [safeGetItem, h, h2]

/-- Witness for C9 at an empty key, a throwing store and a successful read. -/
theorem safeGetItem_fallback_witness :
    safeGetItem ("") (fun _ => StorageRead.absent) none = none ∧
    safeGetItem ("stats-0") (fun _ => StorageRead.readThrew) none = none ∧
    safeGetItem ("stats-0") (fun _ => StorageRead.value ("blob")) none
      = some ("blob") :=
  ⟨(safeGetItem_fallback ("") (fun _ => StorageRead.absent) none).1 (by decide),
   (safeGetItem_fallback ("stats-0") (fun _ => StorageRead.readThrew) none).2.1
      (by decide) rfl,
   (safeGetItem_fallback ("stats-0") (fun _ => StorageRead.value ("blob"))
      none).2.2.2 (by decide) ("blob") rfl⟩

/-- C10 — historical and non-historical progress live under disjoint keys:
for every mode number the historical key differs from the non-historical
one, a save touches no key other than its own, and hence saving a historical
game never changes what a non-historical load sees, and vice versa. -/
theorem stateKeys_disjoint :
    (∀ m : Nat, stateKey m true ≠ stateKey m false) ∧
    (∀ (m : Nat) (hist : Bool) (blob : String)
        (store : String → Option String) (k : String), k ≠ stateKey m hist →
      saveState m hist blob store k = store k) ∧
    (∀ (m : Nat) (blob : String) (store : String → Option String),
      loadState m false (saveState m true blob store)
        = loadState m false store) ∧
    (∀ (m : Nat) (blob : String) (store : String → Option String),
      loadState m true (saveState m false blob store)
        = loadState m true store) := by
  have hkey : ∀ m : Nat, stateKey m true ≠ stateKey m false := by
    intro m h
    have hlen := congrArg (fun t => t.data.length) h
    simp only [stateKey, if_true, if_false, String.data_append] at hlen
    simp at hlen
  have hframe : ∀ (m : Nat) (hist : Bool) (blob : String)
      (store : String → Option String) (k : String), k ≠ stateKey m hist →
      saveState m hist blob store k = store k := by
    intro m hist blob store k hk
    simp [saveState, hk]
  refine ⟨hkey, hframe, ?_, ?_⟩
  · intro m blob store
    exact hframe m true blob store (stateKey m false) (fun h => hkey m h.symm)
  · intro m blob store
    exact hframe m false blob store (stateKey m true) (hkey m)

/-- Witness for C10 at mode 0: the two keys differ and a historical save is
invisible to the non-historical key. -/
theorem stateKeys_disjoint_witness :
    stateKey 0 true ≠ stateKey 0 false ∧
    saveState 0 true ("blob") (fun _ => none) (stateKey 0 false) = none ∧
    loadState 0 false (saveState 0 true ("blob") (fun _ => none)) = none :=
  ⟨stateKeys_disjoint.1 0,
   stateKeys_disjoint.2.1 0 true ("blob") (fun _ => none) (stateKey 0 false)
     (fun h => stateKeys_disjoint.1 0 h.symm),
   stateKeys_disjoint.2.2.1 0 ("blob") (fun _ => none)⟩

end WordlePlus
